import Mathlib

/-!
Verification development for the retrieval-and-ranking core of the
product-search backend (`app/rag/`).

The Python source is shallowly embedded: floats that carry prices,
similarity scores and thresholds are modelled as exact rationals;
embedding vectors handed to the normalization code are lists of reals;
fallible external calls (vector store, embedding provider) are modelled
with `Option`, where `none` stands for a raised exception.  The LLM
text-generation block of `recommend_products` (prompt building, Gemini
call, response cleaning, clarification detection) is treated as a black
box, as the spec prescribes, and enters the model as an abstract
`Option (String × Bool)` argument (generated text and the
needs-clarification flag), with `none` meaning the client is absent.
Response message strings are close paraphrases of the source literals;
no property below depends on their exact wording.
-/

/-- Catalog entry, `app/models/product.py` (`Product`).  Only the fields
the retrieval core inspects are carried: the primary-key identifier
(a GUID, modelled as a string) and the optional price. -/
structure Product where
  id : String
  price : Option ℚ
deriving DecidableEq, Repr

/-- The dictionary returned by `RAGService.recommend_products`. -/
structure Response where
  response : String
  products : List Product
  needsClarification : Bool
  scores : List ℚ
deriving DecidableEq, Repr

/-- Python `str.lower()` restricted to the character-wise case map. -/
def toLowerStr (s : String) : String :=
  String.mk (s.data.map Char.toLower)

/-- Python `len(query.split())`: the number of maximal non-whitespace
runs (split on whitespace runs, dropping empty pieces); the Bool flag
records whether the scanner is inside a word. -/
def countWordsAux : List Char → Bool → ℕ
  | [], _ => 0
  | c :: cs, inWord =>
    if c.isWhitespace then countWordsAux cs false
    else (if inWord then 0 else 1) + countWordsAux cs true

/-- Python `len(query.split())`. -/
def countWords (query : String) : ℕ :=
  countWordsAux query.data false

/-- `sub` occurs at the start of `l` (helper for substring tests). -/
def startsWithChars : List Char → List Char → Bool
  | [], _ => true
  | _ :: _, [] => false
  | a :: as, b :: bs => a == b && startsWithChars as bs

/-- `sub` occurs somewhere inside `l` (helper for substring tests). -/
def containsSubChars (sub : List Char) : List Char → Bool
  | [] => sub.isEmpty
  | c :: cs => startsWithChars sub (c :: cs) || containsSubChars sub cs

/-- Python `kw in s` on strings: substring containment. -/
def containsSub (s kw : String) : Bool :=
  containsSubChars kw.data s.data

/-! ### Numeric extraction of `_parse_price_query`

The source extracts price mentions with
`re.findall` with the raw pattern `(?:₹|rs\.?|rupees?|inr)?\s*(\d+(?:[.,]\d+)?)` on `query_lower`.
Since the currency prefix and the whitespace are optional and cannot
consume digits, the captured groups are exactly the tokens produced by
the following scanner: a maximal digit run, optionally extended once by
a `.` or `,` that is immediately followed by another digit run. -/

/-- State of the number scanner: outside a number, inside the integer
part, after a separator whose continuation is still unknown, or inside
the fractional part. -/
inductive ScanState where
  | outside
  | inNum (tok : List Char)
  | pendingSep (tok : List Char) (sep : Char)
  | inFrac (tok : List Char)

/-- One character step of the number scanner. -/
def scanStep : List String × ScanState → Char → List String × ScanState
  | (acc, .outside), c =>
    if c.isDigit then (acc, .inNum [c]) else (acc, .outside)
  | (acc, .inNum tok), c =>
    if c.isDigit then (acc, .inNum (tok ++ [c]))
    else if c == '.' || c == ',' then (acc, .pendingSep tok c)
    else (acc ++ [String.mk tok], .outside)
  | (acc, .pendingSep tok sep), c =>
    if c.isDigit then (acc, .inFrac (tok ++ [sep, c]))
    else (acc ++ [String.mk tok], .outside)
  | (acc, .inFrac tok), c =>
    if c.isDigit then (acc, .inFrac (tok ++ [c]))
    else (acc ++ [String.mk tok], .outside)

/-- Emit the token still in flight when the input ends. -/
def scanFinish : List String × ScanState → List String
  | (acc, .outside) => acc
  | (acc, .inNum tok) => acc ++ [String.mk tok]
  | (acc, .pendingSep tok _) => acc ++ [String.mk tok]
  | (acc, .inFrac tok) => acc ++ [String.mk tok]

/-- All numeric tokens of a character list, in order. -/
def scanNumbers (cs : List Char) : List String :=
  scanFinish (cs.foldl scanStep ([], .outside))

/-- Value of a digit list read in base 10. -/
def digitsToNat (ds : List Char) : ℕ :=
  ds.foldl (fun n c => 10 * n + (c.toNat - 48)) 0

/-- Python `float(match.replace(',', ''))` on a scanned token: commas
are removed (so `1,5` reads as `15`), a single `.` separates the
fractional part. -/
def parsePriceTok (s : String) : ℚ :=
  let cs := s.data.filter fun c => c != ','
  let intPart := cs.takeWhile fun c => c != '.'
  let fracPart := (cs.dropWhile fun c => c != '.').drop 1
  (digitsToNat intPart : ℚ) + (digitsToNat fracPart : ℚ) / (10 : ℚ) ^ fracPart.length

/-- The positive price values recognized in a query
(`price_values` in `_parse_price_query`). -/
def priceValues (query : String) : List ℚ :=
  ((scanNumbers (toLowerStr query).data).map parsePriceTok).filter fun v => 0 < v

/-! ### `_parse_price_query` -/

/-- The parsed price constraint of `RAGService._parse_price_query`. -/
structure PriceInfo where
  minPrice : Option ℚ
  maxPrice : Option ℚ
  priceKeywords : List String
  isPriceQuery : Bool
deriving DecidableEq, Repr

/-- The `price_keywords` list of `_parse_price_query`. -/
def priceKeywordList : List String :=
  ["price", "cost", "budget", "cheap", "expensive", "affordable",
   "under", "below", "over", "above", "between", "upto", "up to",
   "less than", "more than", "maximum", "minimum", "max", "min",
   "rupee", "rupees", "rs", "₹", "inr"]

/-- Keywords that force the matched numbers to be read as an upper bound. -/
def upperKeywords : List String :=
  ["under", "below", "less than", "upto", "up to", "maximum", "max"]

/-- Keywords that force the matched numbers to be read as a lower bound. -/
def lowerKeywords : List String :=
  ["over", "above", "more than", "minimum", "min"]

/-- Upper-bound keywords re-tested in the single-value branch. -/
def singleUpperKeywords : List String :=
  ["under", "below", "less than", "upto", "up to"]

/-- Lower-bound keywords re-tested in the single-value branch. -/
def singleLowerKeywords : List String :=
  ["over", "above", "more than"]

/-- Qualitative keywords mapped to the default upper bound 100. -/
def cheapKeywords : List String :=
  ["cheap", "affordable", "budget", "low price", "low cost"]

/-- Qualitative keywords mapped to the default lower bound 200. -/
def expensiveKeywords : List String :=
  ["expensive", "premium", "luxury", "high price", "high cost"]

/-- Python `max(price_values)` (0 on the empty list, unreachable there). -/
def maxQ : List ℚ → ℚ
  | [] => 0
  | x :: xs => xs.foldl max x

/-- Python `min(price_values)` (0 on the empty list, unreachable there). -/
def minQ : List ℚ → ℚ
  | [] => 0
  | x :: xs => xs.foldl min x

/-- Python truthiness of an optional float (`None` and `0.0` are falsy). -/
def qTruthy : Option ℚ → Bool
  | none => false
  | some v => v != 0

/-- The numeric `min/max` selection block of `_parse_price_query`
(the `if price_values:` chain). -/
def priceBounds (ql : String) (vals : List ℚ) : Option ℚ × Option ℚ :=
  if upperKeywords.any (fun kw => containsSub ql kw) then
    (none, some (maxQ vals))
  else if lowerKeywords.any (fun kw => containsSub ql kw) then
    (some (minQ vals), none)
  else if containsSub ql "between" || (decide (2 ≤ vals.length) && containsSub ql "and") then
    (some (minQ vals), some (maxQ vals))
  else if vals.length = 1 then
    if singleUpperKeywords.any (fun kw => containsSub ql kw) then
      (none, some (vals.headD 0))
    else if singleLowerKeywords.any (fun kw => containsSub ql kw) then
      (some (vals.headD 0), none)
    else
      (none, some (vals.headD 0))
  else (none, none)

/-- `RAGService._parse_price_query`.  Returns `none` when the query is
empty or carries no price signal at all. -/
def parse_price_query (query : String) : Option PriceInfo :=
  if query = "" then none
  else
    let ql := toLowerStr query
    let found := priceKeywordList.filter fun kw => containsSub ql kw
    let isPQ := !found.isEmpty
    let vals := priceValues query
    let bounds :=
      if !vals.isEmpty then priceBounds ql vals
      else if cheapKeywords.any (fun kw => containsSub ql kw) then
        ((none : Option ℚ), (some 100 : Option ℚ))
      else if expensiveKeywords.any (fun kw => containsSub ql kw) then
        (some 200, none)
      else (none, none)
    let isPQ2 :=
      if vals.isEmpty &&
          (cheapKeywords.any (fun kw => containsSub ql kw) ||
           expensiveKeywords.any (fun kw => containsSub ql kw)) then
        true
      else isPQ
    if isPQ2 || qTruthy bounds.1 || qTruthy bounds.2 then
      some { minPrice := bounds.1, maxPrice := bounds.2,
             priceKeywords := found, isPriceQuery := isPQ2 }
    else none

/-! ### `_filter_by_price` -/

/-- The per-row keep decision of `RAGService._filter_by_price`: the
price must pass the inclusive bounds; a missing price survives only a
max-only constraint; a missing product is dropped. -/
def priceKeepPred (min_price max_price : Option ℚ) (r : Option Product × ℚ) : Bool :=
  match r.1 with
  | none => false
  | some p =>
    match p.price with
    | none => min_price.isNone && max_price.isSome
    | some pr =>
      (match min_price with
       | some m => decide (m ≤ pr)
       | none => true) &&
      (match max_price with
       | some M => decide (pr ≤ M)
       | none => true)

/-- `RAGService._filter_by_price`: with no bound at all the input is
returned as is (including `None` products, which the filtering branch
always drops), otherwise rows are kept by `priceKeepPred`. -/
def filter_by_price (products : List (Option Product × ℚ))
    (min_price max_price : Option ℚ) : List (Option Product × ℚ) :=
  if products.isEmpty then []
  else if min_price.isNone && max_price.isNone then products
  else products.filter (priceKeepPred min_price max_price)

/-! ### Threshold selection and input normalization -/

/-- `RAGService._calculate_optimal_threshold`. -/
def calculate_optimal_threshold (query : String) (initial_result_count : ℕ) : ℚ :=
  let query_words := countWords query
  let base1 := (6 : ℚ) / 10
  let base2 := if query_words ≤ 2 then base1 - 1 / 10 else base1
  let base3 := if initial_result_count < 3 then base2 - 15 / 100 else base2
  let base4 := if 5 < query_words then base3 + 5 / 100 else base3
  max (3 / 10) (min (9 / 10) base4)

/-- The `similarity_threshold` validation of `recommend_products`:
clamp to `[0, 1]`. -/
def clampThreshold (t : ℚ) : ℚ :=
  if t < 0 then 0 else if 1 < t then 1 else t

/-- The `max_results` validation of `recommend_products`: a value below
1 is replaced by the default 5, a value above 20 becomes 20. -/
def normalizeCount (c : ℤ) : ℕ :=
  if c < 1 then 5 else if 20 < c then 20 else c.toNat

/-- The threshold actually used for the first search pass: the
auto-adjusted value when `auto_adjust_threshold` is set (the call site
passes no `initial_result_count`, so the default 0 applies), otherwise
the caller threshold (already clamped). -/
def effectiveThreshold (query : String) (t : ℚ) (autoAdjust : Bool) : ℚ :=
  if autoAdjust then calculate_optimal_threshold query 0 else t

/-! ### Sorting and deduplication helpers used by the pipeline -/

/-- Insert a row into a list kept ascending by the second component
(the pgvector distance). -/
def insertDistAsc (x : Product × ℚ) : List (Product × ℚ) → List (Product × ℚ)
  | [] => [x]
  | y :: ys => if x.2 ≤ y.2 then x :: y :: ys else y :: insertDistAsc x ys

/-- Sort ascending by the second component (the `ORDER BY` of the
similarity query). -/
def sortDistAsc : List (Product × ℚ) → List (Product × ℚ)
  | [] => []
  | x :: xs => insertDistAsc x (sortDistAsc xs)

/-- Insert a row into a list kept descending by score. -/
def insertScoreDesc (x : Product × ℚ) : List (Product × ℚ) → List (Product × ℚ)
  | [] => [x]
  | y :: ys => if y.2 ≤ x.2 then x :: y :: ys else y :: insertScoreDesc x ys

/-- Sort descending by score
(`combined_results.sort(key=lambda x: x[1], reverse=True)`). -/
def sortScoreDesc : List (Product × ℚ) → List (Product × ℚ)
  | [] => []
  | x :: xs => insertScoreDesc x (sortScoreDesc xs)

/-- The union loop of the backfill step: keep the first occurrence of
every product id, accumulating `seen_ids`. -/
def dedupById : List (Product × ℚ) → List String → List (Product × ℚ)
  | [], _ => []
  | r :: rest, seen =>
    if r.1.id ∈ seen then dedupById rest seen
    else r :: dedupById rest (r.1.id :: seen)

/-! ### `VectorSearchService.search_similar_products`

The SQL query runs against the `products` table; per request each row
carries its cosine distance (`embedding <=> query_vec`) to the current
query vector, `none` when the `embedding` column is NULL.  The model
takes that per-row distance as input data and reproduces the filtering
(`distance < 1 - threshold`), ordering (`ORDER BY` distance ascending),
`LIMIT`, and the reported similarity `1 - distance`. -/

/-- `VectorSearchService.search_similar_products`. -/
def search_similar_products (query_embedding : List ℚ)
    (table : List (Product × Option ℚ)) (limit : ℕ)
    (similarity_threshold : ℚ) : List (Product × ℚ) :=
  if query_embedding.isEmpty then []
  else
    let max_distance := 1 - similarity_threshold
    let rows := table.filterMap fun r => r.2.map fun d => (r.1, d)
    let kept := rows.filter fun r => r.2 < max_distance
    ((sortDistAsc kept).take limit).map fun r => (r.1, 1 - r.2)

/-! ### `RAGService.recommend_products`

The pipeline is parameterized by the search function
`search : limit → threshold → Option (list of (product?, score))`
standing for `vector_search.search_by_query_text` on the request query;
`none` models a raised exception, a `none` product models a missing
product reference in a returned row. -/

/-- The first validation loop of `recommend_products`: drop rows whose
product is `None` or whose score is outside `[0, 1]`. -/
def validResults (rs : List (Option Product × ℚ)) : List (Product × ℚ) :=
  rs.filterMap fun r =>
    match r.1 with
    | some p => if 0 ≤ r.2 ∧ r.2 ≤ 1 then some (p, r.2) else none
    | none => none

/-- View a validated list as rows again (for `_filter_by_price`,
whose Python argument type is the raw row list). -/
def toOptList (rs : List (Product × ℚ)) : List (Option Product × ℚ) :=
  rs.map fun r => (some r.1, r.2)

/-- Drop rows with a missing product (the `if product` guards of the
merge loop). -/
def stripOpt (rs : List (Option Product × ℚ)) : List (Product × ℚ) :=
  rs.filterMap fun r => r.1.map fun p => (p, r.2)

/-- The recall-insufficient retry of `recommend_products` (lines
812-838).  Returns the surviving result set and, when a retry pass was
issued, its `(limit, threshold)`.  An exception in the retry search
(`none`) keeps the original results. -/
def retryStep (search : ℕ → ℚ → Option (List (Option Product × ℚ)))
    (maxR : ℕ) (t : ℚ) (sr : List (Product × ℚ)) :
    List (Product × ℚ) × Option (ℕ × ℚ) :=
  if sr.length < maxR ∧ (3 : ℚ) / 10 < t then
    match search (2 * maxR) (max (3 / 10) (t - 2 / 10)) with
    | none => (sr, some (2 * maxR, max (3 / 10) (t - 2 / 10)))
    | some rrs =>
      let vr := validResults rrs
      (if sr.length < vr.length then vr else sr,
       some (2 * maxR, max (3 / 10) (t - 2 / 10)))
  else (sr, none)

/-- The under-filtered backfill of `recommend_products` (lines 851-883):
when the price filter left fewer than `max_results` candidates, search
again with `limit = 3 × max_results` and threshold lowered by a further
0.15 (floor 0.3), price-filter the new rows, union by product id (first
occurrence wins), re-sort by descending score and truncate to
`2 × max_results`.  An exception (`none`) keeps the filtered set. -/
def backfillStep (search : ℕ → ℚ → Option (List (Option Product × ℚ)))
    (maxR : ℕ) (t : ℚ) (minP maxP : Option ℚ) (sr : List (Product × ℚ)) :
    List (Product × ℚ) × Option (ℕ × ℚ) :=
  if sr.length < maxR then
    match search (3 * maxR) (max (3 / 10) (t - 15 / 100)) with
    | none => (sr, some (3 * maxR, max (3 / 10) (t - 15 / 100)))
    | some addl =>
      let addlF := stripOpt (filter_by_price addl minP maxP)
      let combined := dedupById (sr ++ addlF) []
      ((sortScoreDesc combined).take (2 * maxR),
       some (3 * maxR, max (3 / 10) (t - 15 / 100)))
  else (sr, none)

/-- Validation, retry, price filtering and backfill of
`recommend_products`, applied to the rows of the first pass.  Returns
the final candidate list together with the `(limit, threshold)` of the
retry and backfill passes, when issued. -/
def candidateStage (search : ℕ → ℚ → Option (List (Option Product × ℚ)))
    (q : String) (maxR : ℕ) (t : ℚ) (rs : List (Option Product × ℚ)) :
    List (Product × ℚ) × Option (ℕ × ℚ) × Option (ℕ × ℚ) :=
  let sr1 := validResults rs
  let retryOut := retryStep search maxR t sr1
  match parse_price_query q with
  | some pi =>
    if pi.minPrice.isSome || pi.maxPrice.isSome then
      let f := stripOpt (filter_by_price (toOptList retryOut.1) pi.minPrice pi.maxPrice)
      let b := backfillStep search maxR t pi.minPrice pi.maxPrice f
      (b.1, retryOut.2, b.2)
    else (retryOut.1, retryOut.2, none)
  | none => (retryOut.1, retryOut.2, none)

/-- Whether a parsed price constraint sets at least one bound (the
`price_info and (min is not None or max is not None)` test). -/
def hasPriceBound : Option PriceInfo → Bool
  | none => false
  | some pi => pi.minPrice.isSome || pi.maxPrice.isSome

/-- Response of the `not user_query` input rejection. -/
def invalidQueryResponse : Response :=
  { response := "Please provide a valid query.",
    products := [], needsClarification := false, scores := [] }

/-- Response of the empty-after-trim input rejection. -/
def emptyQueryResponse : Response :=
  { response := "Please provide a non-empty query.",
    products := [], needsClarification := false, scores := [] }

/-- Response returned when the first search pass raises. -/
def searchErrorResponse : Response :=
  { response := "I encountered an error while searching for products. Please try again.",
    products := [], needsClarification := false, scores := [] }

/-- Response returned when no products survive; the wording depends on
whether a price constraint was active. -/
def noProductsResponse (withPriceBound : Bool) : Response :=
  { response :=
      if withPriceBound then
        "No products matched your query within the requested price range. Could you try adjusting your price range?"
      else
        "No products matched your query. Could you try rephrasing your request?",
    products := [], needsClarification := false, scores := [] }

/-- The LLM-unavailable fallback message. -/
def foundCountMsg (n : ℕ) : String :=
  "I found " ++ toString n ++ " product(s) that might match your query:"

/-- Singleton or empty trace entry. -/
def optToList : Option (ℕ × ℚ) → List (ℕ × ℚ)
  | none => []
  | some x => [x]

/-- Python `str.strip()`: drop leading and trailing whitespace. -/
def strip (s : String) : String :=
  String.mk (((s.data.dropWhile Char.isWhitespace).reverse.dropWhile
    Char.isWhitespace).reverse)

/-- `RAGService.recommend_products`, instrumented with the list of
issued search passes as `(limit, threshold)` pairs, in order.  `llm`
abstracts the Gemini client (`none` = unavailable) together with the
cleaned response text and the detected clarification flag; `isInfo` is
the outcome of `_is_informational_query` (its Python `None` result is
falsy at every use site, so a Bool suffices). -/
def recommendWithPasses (search : ℕ → ℚ → Option (List (Option Product × ℚ)))
    (llm : Option (String × Bool)) (isInfo : Bool) (query : String)
    (maxResults : ℤ) (threshold : ℚ) (autoAdjust : Bool) :
    Response × List (ℕ × ℚ) :=
  if query = "" then (invalidQueryResponse, [])
  else
    let q := strip query
    if q = "" then (emptyQueryResponse, [])
    else
      let maxR := normalizeCount maxResults
      let t := effectiveThreshold q (clampThreshold threshold) autoAdjust
      match search (2 * maxR) t with
      | none => (searchErrorResponse, [(2 * maxR, t)])
      | some rs =>
        let stage := candidateStage search q maxR t rs
        let passes := (2 * maxR, t) :: (optToList stage.2.1 ++ optToList stage.2.2)
        let final := stage.1.take maxR
        let products := final.map fun r => r.1
        if products.isEmpty then
          (noProductsResponse (hasPriceBound (parse_price_query q)), passes)
        else
          match llm with
          | none =>
            ({ response := foundCountMsg products.length,
               products := if isInfo then [] else products,
               needsClarification := false,
               scores := final.map fun r => r.2 }, passes)
          | some (txt, clar) =>
            if isInfo then
              ({ response := txt, products := [],
                 needsClarification := false, scores := [] }, passes)
            else
              ({ response := txt, products := products,
                 needsClarification := clar,
                 scores := final.map fun r => r.2 }, passes)

/-- `RAGService.recommend_products` (the returned response object). -/
def recommend_products (search : ℕ → ℚ → Option (List (Option Product × ℚ)))
    (llm : Option (String × Bool)) (isInfo : Bool) (query : String)
    (maxResults : ℤ) (threshold : ℚ) (autoAdjust : Bool) : Response :=
  (recommendWithPasses search llm isInfo query maxResults threshold autoAdjust).1

/-! ### `EmbeddingService.generate_embedding`

Vector entries are reals; `providerOutput` is the embedding returned by
the Gemini call (`none` models empty input text, an API failure, or an
empty `result.embeddings`). -/

/-- Sum of squared entries. -/
def normSq (v : List ℝ) : ℝ :=
  (v.map fun x => x * x).sum

/-- `np.linalg.norm` (the L2 norm). -/
noncomputable def l2norm (v : List ℝ) : ℝ :=
  Real.sqrt (normSq v)

/-- `EmbeddingService.generate_embedding`: for a configured dimension
other than 3072 the provider output is divided by its L2 norm (when
that norm is positive); for dimension 3072 the provider output is
returned unchanged. -/
noncomputable def generate_embedding (dimension : ℕ)
    (providerOutput : Option (List ℝ)) : Option (List ℝ) :=
  match providerOutput with
  | none => none
  | some values =>
    if dimension ≠ 3072 then
      let n := l2norm values
      if 0 < n then some (values.map fun x => x / n) else some values
    else some values

/-! ### Helper lemmas: sorting -/

theorem insertDistAsc_perm (x : Product × ℚ) (l : List (Product × ℚ)) :
    List.Perm (insertDistAsc x l) (x :: l) := by
  induction l with
  | nil => simp [insertDistAsc]
  | cons y ys ih =>
    simp only [insertDistAsc]
    split
    · exact List.Perm.refl _
    · exact (ih.cons y).trans (List.Perm.swap x y ys)

theorem sortDistAsc_perm (l : List (Product × ℚ)) : List.Perm (sortDistAsc l) l := by
  induction l with
  | nil => simp [sortDistAsc]
  | cons x xs ih =>
    exact (insertDistAsc_perm x (sortDistAsc xs)).trans (ih.cons x)

theorem insertDistAsc_pairwise {x : Product × ℚ} {l : List (Product × ℚ)}
    (h : l.Pairwise fun a b => a.2 ≤ b.2) :
    (insertDistAsc x l).Pairwise fun a b => a.2 ≤ b.2 := by
  induction l with
  | nil => simp [insertDistAsc]
  | cons y ys ih =>
    rw [List.pairwise_cons] at h
    obtain ⟨hy, hys⟩ := h
    simp only [insertDistAsc]
    split
    case isTrue hxy =>
      rw [List.pairwise_cons]
      refine ⟨?_, ?_⟩
      · intro z hz
        rcases List.mem_cons.mp hz with rfl | hz
        · exact hxy
        · exact le_trans hxy (hy z hz)
      · rw [List.pairwise_cons]
        exact ⟨hy, hys⟩
    case isFalse hxy =>
      rw [List.pairwise_cons]
      refine ⟨?_, ih hys⟩
      intro z hz
      have hz' := (insertDistAsc_perm x ys).mem_iff.mp hz
      rcases List.mem_cons.mp hz' with rfl | hz'
      · exact le_of_not_le hxy
      · exact hy z hz'

theorem sortDistAsc_pairwise (l : List (Product × ℚ)) :
    (sortDistAsc l).Pairwise fun a b => a.2 ≤ b.2 := by
  induction l with
  | nil => simp [sortDistAsc]
  | cons x xs ih => exact insertDistAsc_pairwise ih

theorem insertScoreDesc_perm (x : Product × ℚ) (l : List (Product × ℚ)) :
    List.Perm (insertScoreDesc x l) (x :: l) := by
  induction l with
  | nil => simp [insertScoreDesc]
  | cons y ys ih =>
    simp only [insertScoreDesc]
    split
    · exact List.Perm.refl _
    · exact (ih.cons y).trans (List.Perm.swap x y ys)

theorem sortScoreDesc_perm (l : List (Product × ℚ)) : List.Perm (sortScoreDesc l) l := by
  induction l with
  | nil => simp [sortScoreDesc]
  | cons x xs ih =>
    exact (insertScoreDesc_perm x (sortScoreDesc xs)).trans (ih.cons x)

/-! ### Helper lemmas: deduplication by id -/

theorem mem_dedupById {r : Product × ℚ} :
    ∀ {l : List (Product × ℚ)} {seen : List String},
      r ∈ dedupById l seen → r ∈ l := by
  intro l
  induction l with
  | nil => intro seen h; simp [dedupById] at h
  | cons x xs ih =>
    intro seen h
    simp only [dedupById] at h
    split at h
    · exact List.mem_cons_of_mem x (ih h)
    · rcases List.mem_cons.mp h with rfl | h
      · exact List.mem_cons_self _ _
      · exact List.mem_cons_of_mem _ (ih h)

theorem dedupById_id_not_seen {r : Product × ℚ} :
    ∀ {l : List (Product × ℚ)} {seen : List String},
      r ∈ dedupById l seen → r.1.id ∉ seen := by
  intro l
  induction l with
  | nil => intro seen h; simp [dedupById] at h
  | cons x xs ih =>
    intro seen h
    simp only [dedupById] at h
    split at h
    · exact ih h
    · rcases List.mem_cons.mp h with rfl | h
      · assumption
      · intro hseen
        exact ih h (List.mem_cons_of_mem _ hseen)

theorem nodup_dedupById :
    ∀ (l : List (Product × ℚ)) (seen : List String),
      ((dedupById l seen).map fun r => r.1.id).Nodup := by
  intro l
  induction l with
  | nil => intro seen; simp [dedupById]
  | cons x xs ih =>
    intro seen
    simp only [dedupById]
    split
    · exact ih seen
    · rw [List.map_cons, List.nodup_cons]
      refine ⟨?_, ih _⟩
      intro hmem
      obtain ⟨r, hr, hid⟩ := List.mem_map.mp hmem
      have hnot := dedupById_id_not_seen hr
      rw [hid] at hnot
      exact hnot (List.mem_cons_self _ _)

theorem dedupById_append (addl : List (Product × ℚ)) :
    ∀ (pre : List (Product × ℚ)) (seen : List String),
      (pre.map fun r => r.1.id).Nodup →
      (∀ r ∈ pre, r.1.id ∉ seen) →
      dedupById (pre ++ addl) seen =
        pre ++ dedupById addl ((pre.map fun r => r.1.id).reverse ++ seen) := by
  intro pre
  induction pre with
  | nil => intro seen _ _; simp
  | cons x xs ih =>
    intro seen hn hd
    rw [List.map_cons, List.nodup_cons] at hn
    have hx : x.1.id ∉ seen := hd x (List.mem_cons_self _ _)
    rw [List.cons_append]
    simp only [dedupById, if_neg hx]
    rw [ih (x.1.id :: seen) hn.2 ?side]
    case side =>
      intro r hr
      rw [List.mem_cons]
      push_neg
      refine ⟨?_, hd r (List.mem_cons_of_mem _ hr)⟩
      intro heq
      exact hn.1 (by rw [← heq]; exact List.mem_map_of_mem _ hr)
    rw [List.map_cons, List.reverse_cons, List.cons_append, List.append_assoc,
      List.singleton_append]

/-! ### Helper lemmas: validation, stripping, price filter -/

/-- The product ids of the rows that carry a product. -/
def rowIds (rs : List (Option Product × ℚ)) : List String :=
  rs.filterMap fun r => r.1.map fun p => p.id

theorem mem_validResults {rs : List (Option Product × ℚ)} {r : Product × ℚ} :
    r ∈ validResults rs ↔ (some r.1, r.2) ∈ rs ∧ 0 ≤ r.2 ∧ r.2 ≤ 1 := by
  unfold validResults
  rw [List.mem_filterMap]
  constructor
  · rintro ⟨⟨op, s⟩, hmem, heq⟩
    cases op with
    | none => simp at heq
    | some q =>
      simp only at heq
      by_cases hc : 0 ≤ s ∧ s ≤ 1
      · rw [if_pos hc] at heq
        injection heq with heq
        rw [← heq]
        exact ⟨hmem, hc⟩
      · rw [if_neg hc] at heq
        simp at heq
  · rintro ⟨hmem, hc⟩
    exact ⟨(some r.1, r.2), hmem, by simp [hc.1, hc.2]⟩

theorem validResults_ids_sublist (rs : List (Option Product × ℚ)) :
    List.Sublist ((validResults rs).map fun r => r.1.id) (rowIds rs) := by
  induction rs with
  | nil => simp [validResults, rowIds]
  | cons r rest ih =>
    obtain ⟨op, s⟩ := r
    cases op with
    | none => simpa [validResults, rowIds, List.filterMap_cons] using ih
    | some p =>
      by_cases hc : 0 ≤ s ∧ s ≤ 1
      · simpa [validResults, rowIds, List.filterMap_cons, hc] using ih.cons₂ p.id
      · simpa [validResults, rowIds, List.filterMap_cons, hc] using ih.cons p.id

theorem mem_stripOpt {rs : List (Option Product × ℚ)} {r : Product × ℚ} :
    r ∈ stripOpt rs ↔ (some r.1, r.2) ∈ rs := by
  unfold stripOpt
  rw [List.mem_filterMap]
  constructor
  · rintro ⟨⟨op, s⟩, hmem, heq⟩
    cases op with
    | none => simp at heq
    | some q =>
      simp only [Option.map_some'] at heq
      injection heq with heq
      rw [← heq]
      exact hmem
  · intro hmem
    exact ⟨(some r.1, r.2), hmem, rfl⟩

theorem stripOpt_ids (rs : List (Option Product × ℚ)) :
    ((stripOpt rs).map fun r => r.1.id) = rowIds rs := by
  induction rs with
  | nil => simp [stripOpt, rowIds]
  | cons r rest ih =>
    obtain ⟨op, s⟩ := r
    cases op with
    | none => simpa [stripOpt, rowIds, List.filterMap_cons] using ih
    | some p => simpa [stripOpt, rowIds, List.filterMap_cons] using ih

theorem mem_toOptList {l : List (Product × ℚ)} {p : Product} {s : ℚ} :
    (some p, s) ∈ toOptList l ↔ (p, s) ∈ l := by
  unfold toOptList
  rw [List.mem_map]
  constructor
  · rintro ⟨⟨q, s'⟩, hmem, heq⟩
    simp only [Prod.mk.injEq, Option.some.injEq] at heq
    obtain ⟨rfl, rfl⟩ := heq
    exact hmem
  · intro hmem
    exact ⟨(p, s), hmem, rfl⟩

theorem rowIds_toOptList (l : List (Product × ℚ)) :
    rowIds (toOptList l) = l.map fun r => r.1.id := by
  induction l with
  | nil => simp [toOptList, rowIds]
  | cons r rest ih =>
    simp [toOptList, rowIds, List.filterMap_cons] at ih ⊢
    exact ih

theorem filter_by_price_subset {ps : List (Option Product × ℚ)}
    {mn mx : Option ℚ} {r : Option Product × ℚ}
    (h : r ∈ filter_by_price ps mn mx) : r ∈ ps := by
  unfold filter_by_price at h
  split at h
  · simp at h
  · split at h
    · exact h
    · exact List.mem_of_mem_filter h

theorem filter_by_price_ids_sublist (ps : List (Option Product × ℚ))
    (mn mx : Option ℚ) :
    List.Sublist (rowIds (filter_by_price ps mn mx)) (rowIds ps) := by
  unfold filter_by_price
  split
  case isTrue h =>
    rw [List.isEmpty_iff.mp h]
  case isFalse h =>
    split
    · exact List.Sublist.refl _
    · exact List.Sublist.filterMap _ (List.filter_sublist ps)

/-! ### Helper lemmas: retry, backfill and candidate stage -/

theorem mem_retryStep_fst {search : ℕ → ℚ → Option (List (Option Product × ℚ))}
    {maxR : ℕ} {t : ℚ} {sr : List (Product × ℚ)} {r : Product × ℚ}
    (h : r ∈ (retryStep search maxR t sr).1) :
    r ∈ sr ∨ ∃ rrs, search (2 * maxR) (max (3 / 10) (t - 2 / 10)) = some rrs ∧
      r ∈ validResults rrs := by
  unfold retryStep at h
  split at h
  · rcases hs : search (2 * maxR) (max (3 / 10) (t - 2 / 10)) with _ | rrs <;>
      rw [hs] at h
    · exact Or.inl h
    · simp only at h
      split at h
      · exact Or.inr ⟨rrs, rfl, h⟩
      · exact Or.inl h
  · exact Or.inl h

theorem nodup_retryStep {search : ℕ → ℚ → Option (List (Option Product × ℚ))}
    {maxR : ℕ} {t : ℚ} {sr : List (Product × ℚ)}
    (hsr : (sr.map fun r => r.1.id).Nodup)
    (hs : ∀ k th rs, search k th = some rs → (rowIds rs).Nodup) :
    (((retryStep search maxR t sr).1).map fun r => r.1.id).Nodup := by
  unfold retryStep
  split
  · rcases hh : search (2 * maxR) (max (3 / 10) (t - 2 / 10)) with _ | rrs
    · exact hsr
    · simp only
      split
      · exact ((validResults_ids_sublist rrs).nodup (hs _ _ _ hh))
      · exact hsr
  · exact hsr

theorem mem_backfillStep_fst {search : ℕ → ℚ → Option (List (Option Product × ℚ))}
    {maxR : ℕ} {t : ℚ} {minP maxP : Option ℚ} {sr : List (Product × ℚ)}
    {r : Product × ℚ}
    (h : r ∈ (backfillStep search maxR t minP maxP sr).1) :
    r ∈ sr ∨ ∃ addl, search (3 * maxR) (max (3 / 10) (t - 15 / 100)) = some addl ∧
      r ∈ stripOpt (filter_by_price addl minP maxP) := by
  unfold backfillStep at h
  split at h
  · rcases hs : search (3 * maxR) (max (3 / 10) (t - 15 / 100)) with _ | addl <;>
      rw [hs] at h
    · exact Or.inl h
    · simp only at h
      have h1 := List.take_subset _ _ h
      have h2 := (sortScoreDesc_perm _).mem_iff.mp h1
      have h3 := mem_dedupById h2
      rcases List.mem_append.mp h3 with h4 | h4
      · exact Or.inl h4
      · exact Or.inr ⟨addl, rfl, h4⟩
  · exact Or.inl h

theorem nodup_backfillStep {search : ℕ → ℚ → Option (List (Option Product × ℚ))}
    {maxR : ℕ} {t : ℚ} {minP maxP : Option ℚ} {sr : List (Product × ℚ)}
    (hsr : (sr.map fun r => r.1.id).Nodup) :
    (((backfillStep search maxR t minP maxP sr).1).map fun r => r.1.id).Nodup := by
  unfold backfillStep
  split
  · rcases hh : search (3 * maxR) (max (3 / 10) (t - 15 / 100)) with _ | addl
    · exact hsr
    · simp only
      rw [List.map_take]
      refine (List.take_sublist _ _).nodup ?_
      refine ((sortScoreDesc_perm _).map fun r => r.1.id).nodup_iff.mpr ?_
      exact nodup_dedupById _ _
  · exact hsr

theorem length_backfillStep {search : ℕ → ℚ → Option (List (Option Product × ℚ))}
    {maxR : ℕ} {t : ℚ} {minP maxP : Option ℚ} {sr : List (Product × ℚ)}
    (hlen : sr.length < maxR)
    (hsr : (sr.map fun r => r.1.id).Nodup) :
    sr.length ≤ ((backfillStep search maxR t minP maxP sr).1).length := by
  unfold backfillStep
  rw [if_pos hlen]
  rcases hh : search (3 * maxR) (max (3 / 10) (t - 15 / 100)) with _ | addl
  · exact le_refl _
  · simp only
    rw [List.length_take]
    have hded := dedupById_append (stripOpt (filter_by_price addl minP maxP)) sr []
      hsr (by intro r _; exact List.not_mem_nil _)
    rw [List.append_nil] at hded
    rw [(sortScoreDesc_perm _).length_eq, hded, List.length_append]
    refine le_min ?_ ?_
    · omega
    · omega

theorem scores_candidateStage {search : ℕ → ℚ → Option (List (Option Product × ℚ))}
    {q : String} {maxR : ℕ} {t : ℚ} {rs : List (Option Product × ℚ)}
    {r : Product × ℚ}
    (hs : ∀ k th l, search k th = some l → ∀ x ∈ l, x.2 ≤ 1 ∧ th < x.2)
    (h : r ∈ (candidateStage search q maxR t rs).1) :
    0 ≤ r.2 ∧ r.2 ≤ 1 := by
  have hretry : ∀ x : Product × ℚ, x ∈ (retryStep search maxR t (validResults rs)).1 →
      0 ≤ x.2 ∧ x.2 ≤ 1 := by
    intro x hx
    rcases mem_retryStep_fst hx with hx | ⟨rrs, _, hx⟩
    · exact (mem_validResults.mp hx).2
    · exact (mem_validResults.mp hx).2
  unfold candidateStage at h
  rcases hpi : parse_price_query q with _ | pi <;> rw [hpi] at h
  · exact hretry r h
  · simp only at h
    split at h
    · rcases mem_backfillStep_fst h with hf | ⟨addl, haddl, hf⟩
      · have := mem_stripOpt.mp hf
        have := filter_by_price_subset this
        have := mem_toOptList.mp this
        exact hretry (r.1, r.2) this
      · have h1 := mem_stripOpt.mp hf
        have h2 := filter_by_price_subset h1
        have h3 := hs _ _ _ haddl _ h2
        refine ⟨le_trans (by norm_num) (le_of_lt (lt_of_le_of_lt (le_max_left (3/10) _) h3.2)), h3.1⟩
    · exact hretry r h

theorem nodup_candidateStage {search : ℕ → ℚ → Option (List (Option Product × ℚ))}
    {q : String} {maxR : ℕ} {t : ℚ} {rs : List (Option Product × ℚ)}
    (hrs : (rowIds rs).Nodup)
    (hs : ∀ k th l, search k th = some l → (rowIds l).Nodup) :
    (((candidateStage search q maxR t rs).1).map fun r => r.1.id).Nodup := by
  have h1 : ((validResults rs).map fun r => r.1.id).Nodup :=
    (validResults_ids_sublist rs).nodup hrs
  have h2 := @nodup_retryStep search maxR t (validResults rs) h1 hs
  unfold candidateStage
  rcases hpi : parse_price_query q with _ | pi
  · exact h2
  · simp only
    split
    · refine nodup_backfillStep ?_
      rw [stripOpt_ids]
      refine (filter_by_price_ids_sublist _ _ _).nodup ?_
      rw [rowIds_toOptList]
      exact h2
    · exact h2

/-! ### Helper lemmas: the full entry point -/

theorem nodup_finalProducts {search : ℕ → ℚ → Option (List (Option Product × ℚ))}
    {q : String} {maxR n : ℕ} {t : ℚ} {rs : List (Option Product × ℚ)}
    (hrs : (rowIds rs).Nodup)
    (hs : ∀ k th l, search k th = some l → (rowIds l).Nodup) :
    ((((candidateStage search q maxR t rs).1.take n).map fun r => r.1).map
      fun p => p.id).Nodup := by
  rw [List.map_map, List.map_take]
  exact (List.take_sublist _ _).nodup (nodup_candidateStage hrs hs)

theorem nodup_recommend_aux {search : ℕ → ℚ → Option (List (Option Product × ℚ))}
    {llm : Option (String × Bool)} {isInfo : Bool} {query : String}
    {c : ℤ} {th : ℚ} {adj : Bool}
    (hs : ∀ k t l, search k t = some l → (rowIds l).Nodup) :
    (((recommend_products search llm isInfo query c th adj).products).map
      fun p => p.id).Nodup := by
  by_cases h0 : query = ""
  · simp [recommend_products, recommendWithPasses, h0, invalidQueryResponse]
  · by_cases h1 : strip query = ""
    · simp [recommend_products, recommendWithPasses, h0, h1, emptyQueryResponse]
    · rcases hrs : search (2 * normalizeCount c)
          (effectiveThreshold (strip query) (clampThreshold th) adj) with _ | rs
      · simp [recommend_products, recommendWithPasses, h0, h1, hrs, searchErrorResponse]
      · simp only [recommend_products, recommendWithPasses, if_neg h0, if_neg h1, hrs]
        split
        · simp [noProductsResponse]
        · rcases llm with _ | ⟨txt, clar⟩
          · dsimp only
            split
            · simp
            · exact nodup_finalProducts (hs _ _ _ hrs) hs
          · dsimp only
            split
            · simp
            · exact nodup_finalProducts (hs _ _ _ hrs) hs

theorem scores_recommend_aux {search : ℕ → ℚ → Option (List (Option Product × ℚ))}
    {llm : Option (String × Bool)} {isInfo : Bool} {query : String}
    {c : ℤ} {th : ℚ} {adj : Bool}
    (hs : ∀ k t l, search k t = some l → ∀ x ∈ l, x.2 ≤ 1 ∧ t < x.2) :
    ∀ s ∈ (recommend_products search llm isInfo query c th adj).scores,
      0 ≤ s ∧ s ≤ 1 := by
  have key : ∀ (q : String) (maxR n : ℕ) (t : ℚ) (rs : List (Option Product × ℚ)),
      ∀ s ∈ ((candidateStage search q maxR t rs).1.take n).map fun r => r.2,
        0 ≤ s ∧ s ≤ 1 := by
    intro q maxR n t rs s hmem
    obtain ⟨r, hr, rfl⟩ := List.mem_map.mp hmem
    exact scores_candidateStage hs (List.take_subset _ _ hr)
  by_cases h0 : query = ""
  · simp [recommend_products, recommendWithPasses, h0, invalidQueryResponse]
  · by_cases h1 : strip query = ""
    · simp [recommend_products, recommendWithPasses, h0, h1, emptyQueryResponse]
    · rcases hrs : search (2 * normalizeCount c)
          (effectiveThreshold (strip query) (clampThreshold th) adj) with _ | rs
      · simp [recommend_products, recommendWithPasses, h0, h1, hrs, searchErrorResponse]
      · simp only [recommend_products, recommendWithPasses, if_neg h0, if_neg h1, hrs]
        split
        · simp [noProductsResponse]
        · rcases llm with _ | ⟨txt, clar⟩
          · dsimp only
            exact key _ _ _ _ _
          · dsimp only
            split
            · simp
            · exact key _ _ _ _ _

/-! ### Claims -/

theorem mem_filter_by_price {ps : List (Option Product × ℚ)} {mn mx : Option ℚ}
    {p : Product} {s : ℚ} (h : ¬(mn.isNone && mx.isNone) = true) :
    ((some p, s) ∈ filter_by_price ps mn mx ↔
      (some p, s) ∈ ps ∧ priceKeepPred mn mx (some p, s) = true) := by
  unfold filter_by_price
  by_cases hemp : ps.isEmpty = true
  · rw [if_pos hemp, List.isEmpty_iff.mp hemp]
    simp
  · rw [if_neg hemp, if_neg h, List.mem_filter]

theorem filter_by_price_no_bounds {ps : List (Option Product × ℚ)}
    (hne : ps ≠ []) : filter_by_price ps none none = ps := by
  unfold filter_by_price
  rw [if_neg (by simpa using hne)]
  simp

/-- Claim C3: every `(product, score)` pair surviving `_filter_by_price`
satisfies the inclusive max bound (or has no price) when a max bound is
set, and satisfies the inclusive min bound with a present price when a
min bound is set; a product with a missing price is kept exactly when
no min bound is set; pairs meeting the inclusive bounds are kept. -/
theorem C3_price_filter_correct :
    ∀ (products : List (Option Product × ℚ)) (minP maxP : Option ℚ)
      (p : Product) (s : ℚ),
      ((some p, s) ∈ filter_by_price products minP maxP →
        (∀ M, maxP = some M → p.price = none ∨ ∃ pr, p.price = some pr ∧ pr ≤ M) ∧
        (∀ m, minP = some m → ∃ pr, p.price = some pr ∧ m ≤ pr))
      ∧ (p.price = none → (some p, s) ∈ products →
          ((some p, s) ∈ filter_by_price products minP maxP ↔ minP = none))
      ∧ (∀ pr, p.price = some pr → (some p, s) ∈ products →
          (∀ m, minP = some m → m ≤ pr) → (∀ M, maxP = some M → pr ≤ M) →
          (some p, s) ∈ filter_by_price products minP maxP) := by
  intro products minP maxP p s
  refine ⟨?_, ?_, ?_⟩
  · intro hmem
    constructor
    · rintro M rfl
      have hb : ¬(minP.isNone && (some M : Option ℚ).isNone) = true := by
        simp
      rw [mem_filter_by_price hb] at hmem
      rcases hp : p.price with _ | pr
      · exact Or.inl rfl
      · refine Or.inr ⟨pr, rfl, ?_⟩
        have h2 := hmem.2
        simp only [priceKeepPred, hp, Bool.and_eq_true, decide_eq_true_eq] at h2
        exact h2.2
    · rintro m rfl
      have hb : ¬((some m : Option ℚ).isNone && maxP.isNone) = true := by
        simp
      rw [mem_filter_by_price hb] at hmem
      rcases hp : p.price with _ | pr
      · have h2 := hmem.2
        simp [priceKeepPred, hp] at h2
      · refine ⟨pr, rfl, ?_⟩
        have h2 := hmem.2
        simp only [priceKeepPred, hp, Bool.and_eq_true, decide_eq_true_eq] at h2
        exact h2.1
  · intro hp hin
    rcases minP with _ | m
    · rcases maxP with _ | M
      · rw [filter_by_price_no_bounds (List.ne_nil_of_mem hin)]
        exact ⟨fun _ => rfl, fun _ => hin⟩
      · rw [mem_filter_by_price (by simp)]
        refine ⟨fun _ => rfl, fun _ => ⟨hin, ?_⟩⟩
        simp [priceKeepPred, hp]
    · rw [mem_filter_by_price (by simp)]
      constructor
      · intro hmem
        have h2 := hmem.2
        simp [priceKeepPred, hp] at h2
      · intro hcontra
        exact absurd hcontra (by simp)
  · intro pr hp hin hmn hmx
    rcases minP with _ | m <;> rcases maxP with _ | M
    · rw [filter_by_price_no_bounds (List.ne_nil_of_mem hin)]
      exact hin
    · rw [mem_filter_by_price (by simp)]
      refine ⟨hin, ?_⟩
      simp [priceKeepPred, hp, hmx M rfl]
    · rw [mem_filter_by_price (by simp)]
      refine ⟨hin, ?_⟩
      simp [priceKeepPred, hp, hmn m rfl]
    · rw [mem_filter_by_price (by simp)]
      refine ⟨hin, ?_⟩
      simp [priceKeepPred, hp, hmn m rfl, hmx M rfl]

/-- Witness for C3 at a concrete input: a product priced exactly at the
max bound (inclusive comparison) is kept by a max-only filter. -/
theorem C3_witness :
    (some ⟨"a", some 50⟩, (1 : ℚ) / 2) ∈
      filter_by_price [(some ⟨"a", some 50⟩, (1 : ℚ) / 2)] none (some 50) := by
  have h := C3_price_filter_correct [(some ⟨"a", some 50⟩, (1 : ℚ) / 2)]
    none (some 50) ⟨"a", some 50⟩ ((1 : ℚ) / 2)
  exact h.2.2 50 rfl (List.mem_cons_self _ _)
    (fun m hm => by cases hm) (fun M hM => by injection hM with h2; rw [← h2])

/-- Claim C2: the recall-insufficient retry is issued iff the first pass
kept fewer than `max_results` results and the active threshold exceeds
0.3; it uses threshold `max(0.3, t - 0.2)`; the retry set replaces the
first-pass set only when strictly larger, and an exception in the retry
keeps the first-pass set. -/
theorem C2_retry_policy :
    ∀ (search : ℕ → ℚ → Option (List (Option Product × ℚ)))
      (maxR : ℕ) (t : ℚ) (sr : List (Product × ℚ)),
      ((retryStep search maxR t sr).2 =
        if sr.length < maxR ∧ (3 : ℚ) / 10 < t then
          some (2 * maxR, max (3 / 10) (t - 2 / 10))
        else none)
      ∧ (∀ rrs, search (2 * maxR) (max (3 / 10) (t - 2 / 10)) = some rrs →
          (validResults rrs).length ≤ sr.length →
          (retryStep search maxR t sr).1 = sr)
      ∧ (∀ rrs, search (2 * maxR) (max (3 / 10) (t - 2 / 10)) = some rrs →
          sr.length < maxR → (3 : ℚ) / 10 < t →
          sr.length < (validResults rrs).length →
          (retryStep search maxR t sr).1 = validResults rrs)
      ∧ (search (2 * maxR) (max (3 / 10) (t - 2 / 10)) = none →
          (retryStep search maxR t sr).1 = sr) := by
  intro search maxR t sr
  refine ⟨?_, ?_, ?_, ?_⟩
  · unfold retryStep
    split
    case isTrue hc =>
      rcases search (2 * maxR) (max (3 / 10) (t - 2 / 10)) with _ | rrs <;> rfl
    case isFalse hc => rfl
  · intro rrs hs hlen
    unfold retryStep
    split
    case isTrue hc =>
      rw [hs]
      simp only
      rw [if_neg (not_lt.mpr hlen)]
    case isFalse hc => rfl
  · intro rrs hs h1 h2 h3
    unfold retryStep
    rw [if_pos ⟨h1, h2⟩, hs]
    simp only
    rw [if_pos h3]
  · intro hnone
    unfold retryStep
    split
    case isTrue hc => rw [hnone]
    case isFalse hc => rfl

/-- Witness for C2: with an empty first pass, `max_results = 5` and
threshold 0.6, a retry pass is issued at threshold 0.4 and the (empty,
not larger) retry set does not replace the first-pass set. -/
theorem C2_witness :
    (retryStep (fun _ _ => some ([] : List (Option Product × ℚ))) 5 (3 / 5) []).1 = []
    ∧ (retryStep (fun _ _ => some ([] : List (Option Product × ℚ))) 5 (3 / 5) []).2
        = some (10, 2 / 5) := by
  have h := C2_retry_policy (fun _ _ => some []) 5 (3 / 5) []
  have hmax : (3 : ℚ) / 10 ⊔ (3 / 5 - 2 / 10) = 2 / 5 := by
    rw [max_eq_right (by norm_num)]
    norm_num
  refine ⟨h.2.1 [] rfl (by decide), ?_⟩
  rw [h.1, if_pos ⟨by decide, by norm_num⟩, hmax]

/-- Claim C5: whenever the backfill step executes (the price filter left
fewer than `max_results` candidates), the candidate list after union,
re-sort and truncation is at least as long as the pre-backfill filtered
list, also when the backfill search raises.  The id-distinctness
hypothesis holds for every pre-backfill list the pipeline builds (ids
come from distinct table rows of one pass). -/
theorem C5_backfill_monotone :
    ∀ (search : ℕ → ℚ → Option (List (Option Product × ℚ)))
      (maxR : ℕ) (t : ℚ) (minP maxP : Option ℚ) (sr : List (Product × ℚ)),
      sr.length < maxR →
      (sr.map fun r => r.1.id).Nodup →
      sr.length ≤ ((backfillStep search maxR t minP maxP sr).1).length
      ∧ (search (3 * maxR) (max (3 / 10) (t - 15 / 100)) = none →
          (backfillStep search maxR t minP maxP sr).1 = sr) := by
  intro search maxR t minP maxP sr hlen hnodup
  refine ⟨length_backfillStep hlen hnodup, ?_⟩
  intro hnone
  unfold backfillStep
  rw [if_pos hlen, hnone]

/-- Witness for C5: an empty filtered set, `max_results = 1`, backfill
returning one candidate. -/
theorem C5_witness :
    ([] : List (Product × ℚ)).length ≤
      ((backfillStep (fun _ _ => some [(some ⟨"p", some 10⟩, 1 / 2)])
        1 (3 / 5) none (some 100) []).1).length := by
  exact (C5_backfill_monotone _ 1 (3 / 5) none (some 100) []
    (by decide) (by decide)).1

theorem search_rows_ids_sublist (table : List (Product × Option ℚ)) :
    List.Sublist
      ((table.filterMap fun r => r.2.map fun d => (r.1, d)).map fun r => r.1.id)
      (table.map fun r => r.1.id) := by
  induction table with
  | nil => simp
  | cons a rest ih =>
    obtain ⟨p, od⟩ := a
    cases od with
    | none => simpa [List.filterMap_cons] using ih.cons p.id
    | some d => simpa [List.filterMap_cons] using ih.cons₂ p.id

/-- Claim C6: the caller never receives two products with the same id
(under the database invariant that each search pass returns pairwise
distinct product ids, the table primary key); the similarity search
itself preserves distinct ids; and in the backfill union the
pre-backfill pair wins over any later pair with the same id. -/
theorem C6_dedup_first_wins :
    (∀ (search : ℕ → ℚ → Option (List (Option Product × ℚ)))
       (llm : Option (String × Bool)) (isInfo : Bool) (query : String)
       (c : ℤ) (th : ℚ) (adj : Bool),
       (∀ k t l, search k t = some l → (rowIds l).Nodup) →
       (((recommend_products search llm isInfo query c th adj).products).map
         fun p => p.id).Nodup)
    ∧ (∀ (qe : List ℚ) (table : List (Product × Option ℚ)) (k : ℕ) (t : ℚ),
        (table.map fun r => r.1.id).Nodup →
        ((search_similar_products qe table k t).map fun r => r.1.id).Nodup)
    ∧ (∀ (pre addl : List (Product × ℚ)),
        (pre.map fun r => r.1.id).Nodup →
        (∀ p s, (p, s) ∈ pre → (p, s) ∈ dedupById (pre ++ addl) [])
        ∧ (∀ q s, (q, s) ∈ dedupById (pre ++ addl) [] →
            q.id ∈ pre.map (fun r => r.1.id) → (q, s) ∈ pre)) := by
  refine ⟨fun search llm isInfo query c th adj hs => nodup_recommend_aux hs,
    ?_, ?_⟩
  · intro qe table k t hn
    unfold search_similar_products
    split
    · simp
    · show ((((sortDistAsc _).take k).map fun r => (r.1, 1 - r.2)).map
        fun r => r.1.id).Nodup
      rw [List.map_map]
      show ((((sortDistAsc _).take k)).map fun r => r.1.id).Nodup
      rw [List.map_take]
      refine (List.take_sublist _ _).nodup ?_
      refine (((sortDistAsc_perm _).map fun r => r.1.id).nodup_iff).mpr ?_
      refine ((List.filter_sublist _).map fun (r : Product × ℚ) => r.1.id).nodup ?_
      exact (search_rows_ids_sublist table).nodup hn
  · intro pre addl hn
    have hded := dedupById_append addl pre [] hn (by intro r _; exact List.not_mem_nil _)
    rw [List.append_nil] at hded
    constructor
    · intro p s hmem
      rw [hded]
      exact List.mem_append_left _ hmem
    · intro q s hmem hid
      rw [hded] at hmem
      rcases List.mem_append.mp hmem with h | h
      · exact h
      · exfalso
        have hnot := dedupById_id_not_seen h
        apply hnot
        rw [List.mem_reverse]
        exact hid

/-- Witness for C6: Scenario D (two passes return id "abc" with scores
0.8 and 0.75) and a concrete call of the entry point. -/
theorem C6_witness :
    ((recommend_products (fun _ _ => some []) none false "hat" 5 (6 / 10)
      false).products.map fun p => p.id).Nodup
    ∧ (⟨"abc", none⟩, (8 : ℚ) / 10) ∈
        dedupById ([(⟨"abc", none⟩, (8 : ℚ) / 10)] ++
          [(⟨"abc", none⟩, (75 : ℚ) / 100)]) [] := by
  constructor
  · refine C6_dedup_first_wins.1 _ none false "hat" 5 (6 / 10) false ?_
    intro k t l h
    injection h with h
    rw [← h]
    decide
  · exact (C6_dedup_first_wins.2.2 [(⟨"abc", none⟩, (8 : ℚ) / 10)]
      [(⟨"abc", none⟩, (75 : ℚ) / 100)] (by decide)).1 ⟨"abc", none⟩ (8 / 10)
      (List.mem_cons_self _ _)

theorem mem_search_similar_products {qe : List ℚ}
    {table : List (Product × Option ℚ)} {k : ℕ} {t : ℚ} {r : Product × ℚ}
    (h : r ∈ search_similar_products qe table k t) :
    ∃ p d, r = (p, 1 - d) ∧ (p, some d) ∈ table ∧ d < 1 - t := by
  unfold search_similar_products at h
  split at h
  · simp at h
  · obtain ⟨x, hx, rfl⟩ := List.mem_map.mp h
    have hx1 := List.take_subset _ _ hx
    have hx2 := (sortDistAsc_perm _).mem_iff.mp hx1
    rw [List.mem_filter] at hx2
    obtain ⟨hrows, hdist⟩ := hx2
    obtain ⟨a, hmem, heq⟩ := List.mem_filterMap.mp hrows
    refine ⟨x.1, x.2, rfl, ?_, by simpa using hdist⟩
    rcases ha : a.2 with _ | d
    · rw [ha] at heq
      simp at heq
    · rw [ha] at heq
      simp only [Option.map_some'] at heq
      injection heq with heq
      have h1 : a.1 = x.1 := congrArg Prod.fst heq
      have h2 : d = x.2 := congrArg Prod.snd heq
      have : a = (x.1, some x.2) := by
        rw [← h1, ← h2, ← ha]
      rw [← this]
      exact hmem

/-- Amended C4: the similarity search returns at most `limit`
results, ordered by descending score, and every returned score is
STRICTLY greater than the threshold (the SQL filter is
`distance < 1 - threshold`, i.e. `similarity > threshold`); in
particular all scores are also ≥ the threshold, but a candidate whose
similarity equals the threshold exactly is excluded. -/
theorem C4_search_contract :
    ∀ (qe : List ℚ) (table : List (Product × Option ℚ)) (k : ℕ) (t : ℚ),
      (search_similar_products qe table k t).length ≤ k
      ∧ (search_similar_products qe table k t).Pairwise (fun a b => b.2 ≤ a.2)
      ∧ (∀ r ∈ search_similar_products qe table k t, t < r.2 ∧ t ≤ r.2) := by
  intro qe table k t
  refine ⟨?_, ?_, ?_⟩
  · unfold search_similar_products
    split
    · simp
    · rw [List.length_map, List.length_take]
      exact min_le_left _ _
  · unfold search_similar_products
    split
    · simp
    · refine List.Pairwise.map _ ?_
        (((sortDistAsc_pairwise _).sublist (List.take_sublist _ _)))
      intro a b hab
      show 1 - b.2 ≤ 1 - a.2
      linarith
  · intro r hr
    obtain ⟨p, d, rfl, _, hd⟩ := mem_search_similar_products hr
    constructor
    · simpa using by linarith
    · simp only
      linarith

/-- Counterexample to C4 as stated: a candidate whose cosine similarity
equals the threshold exactly (distance 0.5, threshold 0.5) is excluded
by the floor — the comparison is strict, not inclusive. -/
theorem C4_counterexample :
    1 - (1 : ℚ) / 2 = (1 : ℚ) / 2
    ∧ search_similar_products [1] [(⟨"p1", none⟩, some ((1 : ℚ) / 2))]
        5 ((1 : ℚ) / 2) = [] := by
  constructor
  · norm_num
  · norm_num [search_similar_products, sortDistAsc, insertDistAsc,
      List.filterMap_cons]

/-- Witness for C4 at a concrete input: a row at distance 0.1 is
returned with score 0.9, strictly above the threshold 0.5. -/
theorem C4_witness :
    (1 : ℚ) / 2 < (9 : ℚ) / 10 ∧ (1 : ℚ) / 2 ≤ (9 : ℚ) / 10 := by
  have h := (C4_search_contract [1] [(⟨"p1", none⟩, some ((1 : ℚ) / 10))]
    3 ((1 : ℚ) / 2)).2.2 (⟨"p1", none⟩, (9 : ℚ) / 10)
  refine h ?_
  have : search_similar_products [1] [(⟨"p1", none⟩, some ((1 : ℚ) / 10))]
      3 ((1 : ℚ) / 2) = [(⟨"p1", none⟩, (9 : ℚ) / 10)] := by
    norm_num [search_similar_products, sortDistAsc, insertDistAsc,
      List.filterMap_cons]
  rw [this]
  exact List.mem_cons_self _ _

/-- Counterexample to C1 as stated: for the one-word query "shoes" the
effective first-pass threshold is 0.35, not 0.5 — `recommend_products`
calls `_calculate_optimal_threshold` before any search, so the default
`initial_result_count = 0 < 3` always subtracts a further 0.15 that the
claim (and Scenario B) omits. -/
theorem C1_counterexample :
    effectiveThreshold "shoes" (6 / 10) true = 7 / 20
    ∧ ¬ effectiveThreshold "shoes" (6 / 10) true = 1 / 2 := by
  have hw : countWords "shoes" = 1 := by rfl
  have hval : effectiveThreshold "shoes" (6 / 10) true = 7 / 20 := by
    rw [effectiveThreshold, if_pos rfl]
    rw [calculate_optimal_threshold.eq_def, hw]
    norm_num
  exact ⟨hval, by rw [hval]; norm_num⟩

/-- Amended C1: with auto-adjustment on, the effective first-pass
threshold is the base 0.6, lowered by 0.1 for queries of at most two
words, lowered by a FURTHER 0.15 (the pre-search call passes the
default `initial_result_count = 0`, and `0 < 3` always holds), raised
by 0.05 for queries of more than five words, clamped to `[0.3, 0.9]`;
in particular every one-word query gets threshold 0.35. -/
theorem C1_threshold_amended :
    ∀ (q : String) (t : ℚ),
      effectiveThreshold q t true =
        max (3 / 10) (min (9 / 10)
          ((6 : ℚ) / 10 - (if countWords q ≤ 2 then (1 : ℚ) / 10 else 0)
            - 15 / 100 + (if 5 < countWords q then (5 : ℚ) / 100 else 0)))
      ∧ (countWords q = 1 → effectiveThreshold q t true = 7 / 20) := by
  intro q t
  have hbase : effectiveThreshold q t true = calculate_optimal_threshold q 0 := by
    rw [effectiveThreshold, if_pos rfl]
  constructor
  · rw [hbase, calculate_optimal_threshold.eq_def]
    simp only [Nat.zero_lt_succ, if_true]
    split_ifs <;> norm_num
  · intro h1
    rw [hbase, calculate_optimal_threshold.eq_def, h1]
    norm_num

/-- Witness for C1 (amended): the one-word query of Scenario B. -/
theorem C1_witness :
    countWords "shoes" = 1 ∧ effectiveThreshold "shoes" (6 / 10) true = 7 / 20 :=
  ⟨by rfl, (C1_threshold_amended "shoes" (6 / 10)).2 (by rfl)⟩

theorem normSq_nonneg (v : List ℝ) : 0 ≤ normSq v := by
  unfold normSq
  induction v with
  | nil => simp
  | cons x xs ih =>
    rw [List.map_cons, List.sum_cons]
    exact add_nonneg (mul_self_nonneg x) ih

theorem normSq_map_div (v : List ℝ) (n : ℝ) :
    normSq (v.map fun x => x / n) = normSq v / n ^ 2 := by
  induction v with
  | nil => simp [normSq]
  | cons x xs ih =>
    simp only [normSq, List.map_cons, List.sum_cons] at ih ⊢
    rw [ih, div_mul_div_comm, add_div, pow_two]

theorem l2norm_unit {v : List ℝ} (h : 0 < l2norm v) :
    l2norm (v.map fun x => x / l2norm v) = 1 := by
  have hpos : 0 < normSq v := Real.sqrt_pos.mp h
  unfold l2norm
  rw [normSq_map_div]
  rw [Real.sq_sqrt (le_of_lt hpos), div_self (ne_of_gt hpos), Real.sqrt_one]

/-- Claim C9: for a configured dimension other than the natively
normalized 3072 and a provider vector of positive norm,
`generate_embedding` returns the vector divided by its L2 norm, whose
norm is 1; for dimension 3072 the provider output is returned
unchanged. -/
theorem C9_embedding_normalization :
    (∀ (d : ℕ) (v : List ℝ), d ≠ 3072 → 0 < l2norm v →
      generate_embedding d (some v) = some (v.map fun x => x / l2norm v)
      ∧ ∃ w, generate_embedding d (some v) = some w ∧ l2norm w = 1)
    ∧ (∀ v : List ℝ, generate_embedding 3072 (some v) = some v) := by
  constructor
  · intro d v hd hn
    have heq : generate_embedding d (some v) = some (v.map fun x => x / l2norm v) := by
      unfold generate_embedding
      dsimp only
      rw [if_pos hd, if_pos hn]
    exact ⟨heq, ⟨_, heq, l2norm_unit hn⟩⟩
  · intro v
    unfold generate_embedding
    dsimp only
    rw [if_neg (fun h => h rfl)]

/-- Witness for C9: the provider vector `[3, 4]` at dimension 1536 is
rescaled to unit norm. -/
theorem C9_witness :
    l2norm [(3 : ℝ), 4] = 5
    ∧ ∃ w, generate_embedding 1536 (some [(3 : ℝ), 4]) = some w ∧ l2norm w = 1 := by
  have h5 : l2norm [(3 : ℝ), 4] = 5 := by
    unfold l2norm normSq
    norm_num
    rw [show (25 : ℝ) = 5 ^ 2 by norm_num, Real.sqrt_sq (by norm_num)]
  refine ⟨h5, (C9_embedding_normalization.1 1536 [(3 : ℝ), 4] (by norm_num) ?_).2⟩
  rw [h5]
  norm_num

/-- The directional keywords of the claim: any of these would force an
explicit min/max reading in `_parse_price_query`. -/
def directionalKeywords : List String :=
  ["under", "below", "less than", "upto", "up to", "maximum", "max",
   "over", "above", "more than", "minimum", "min", "between"]

/-- Claim C8: a query in which the parser finds exactly one positive
number and no directional keyword yields a constraint with that number
as max bound and no min bound. -/
theorem C8_single_number_max :
    ∀ (q : String) (v : ℚ),
      priceValues q = [v] →
      (∀ kw ∈ directionalKeywords, containsSub (toLowerStr q) kw = false) →
      ∃ pi, parse_price_query q = some pi ∧
        pi.minPrice = none ∧ pi.maxPrice = some v := by
  intro q v h1 h2
  have hq : q ≠ "" := by
    intro hemp
    rw [hemp, show priceValues "" = [] from rfl] at h1
    exact (List.cons_ne_nil v []) h1.symm
  have hv : 0 < v := by
    have hm : v ∈ priceValues q := by
      rw [h1]
      exact List.mem_cons_self _ _
    have := (List.mem_filter.mp hm).2
    exact of_decide_eq_true this
  have hany : ∀ L : List String, (∀ x ∈ L, x ∈ directionalKeywords) →
      (L.any fun kw => containsSub (toLowerStr q) kw) = false := by
    intro L hL
    refine List.any_eq_false.mpr ?_
    intro x hx
    rw [h2 x (hL x hx)]
    exact Bool.false_ne_true
  have hU := hany upperKeywords (by decide)
  have hLo := hany lowerKeywords (by decide)
  have hSU := hany singleUpperKeywords (by decide)
  have hSL := hany singleLowerKeywords (by decide)
  have hbet := h2 "between" (by decide)
  have hbounds : priceBounds (toLowerStr q) [v] = (none, some v) := by
    unfold priceBounds
    rw [hU, hLo, hbet, hSU, hSL]
    simp
  have hvne : (v != 0) = true := bne_iff_ne.mpr (ne_of_gt hv)
  unfold parse_price_query
  rw [if_neg hq]
  dsimp only
  rw [h1, hbounds]
  simp only [List.isEmpty_cons, Bool.not_false, if_true, Bool.false_and,
    Bool.and_false, if_false, qTruthy, hvne, Bool.or_true]
  exact ⟨_, rfl, rfl, rfl⟩

/-- Witness for C8: the query "shoes 50" (one positive number, no
directional keyword) parses to `max = 50`, `min = none`. -/
theorem C8_witness :
    ∃ pi, parse_price_query "shoes 50" = some pi ∧
      pi.minPrice = none ∧ pi.maxPrice = some 50 := by
  have htok : parsePriceTok "50" = 50 := by
    unfold parsePriceTok
    dsimp only
    rw [show List.filter (fun c => c != ',') ['5', '0'] = ['5', '0'] from by decide]
    rw [show List.takeWhile (fun c => c != '.') ['5', '0'] = ['5', '0'] from by decide]
    rw [show List.dropWhile (fun c => c != '.') ['5', '0'] = [] from by decide]
    rw [show digitsToNat ['5', '0'] = 50 from by decide]
    norm_num [digitsToNat]
  have hvals : priceValues "shoes 50" = [50] := by
    unfold priceValues
    rw [show scanNumbers (toLowerStr "shoes 50").data = ["50"] from by decide]
    rw [List.map_cons, List.map_nil, htok]
    norm_num [List.filter_cons, List.filter_nil]
  exact C8_single_number_max "shoes 50" 50 hvals (by decide)

/-- Counterexample to C7 as stated: a `max_results` of 0 is replaced by
the DEFAULT 5, not clamped to the lower bound 1 — the first search pass
then runs with `limit = 2 × 5 = 10` (and retry limit 10), not 2. -/
theorem C7_counterexample :
    normalizeCount 0 = 5
    ∧ normalizeCount 0 ≠ 1
    ∧ (recommendWithPasses (fun _ _ => some []) none false "hat" 0 (6 / 10)
        false).2 = [(10, 3 / 5), (10, 2 / 5)] := by
  refine ⟨rfl, by decide, ?_⟩
  have hth : effectiveThreshold "hat" (clampThreshold (6 / 10)) false = 3 / 5 := by
    unfold effectiveThreshold clampThreshold
    norm_num
  have hstage : candidateStage (fun _ _ => some []) "hat" 5 (3 / 5)
      ([] : List (Option Product × ℚ)) = ([], some (10, 2 / 5), none) := by
    unfold candidateStage
    rw [show parse_price_query "hat" = none from by decide]
    dsimp only [validResults, List.filterMap_nil]
    unfold retryStep
    rw [if_pos ⟨by decide, by norm_num⟩]
    dsimp only [validResults, List.filterMap_nil]
    rw [if_neg (by decide)]
    rw [show (3 : ℚ) / 10 ⊔ (3 / 5 - 2 / 10) = 2 / 5 from by
      rw [max_eq_right (by norm_num)]; norm_num]
  unfold recommendWithPasses
  rw [if_neg (by decide)]
  dsimp only
  rw [show strip "hat" = "hat" from rfl]
  rw [if_neg (by decide)]
  rw [show normalizeCount 0 = 5 from rfl, hth]
  rw [hstage]
  simp [optToList]

/-- Amended C7: the entry point is total (every input yields a
well-formed response object); an out-of-range `similarity_threshold` is
clamped to `[0, 1]`; a `max_results` above 20 becomes 20, one below 1
becomes the DEFAULT 5 (not the clamp bound 1), in-range values are kept,
so the effective count always lies in `[1, 20]`; and only a query that
is empty after stripping is rejected (empty products, no search pass
issued) — any other query issues at least the first search pass. -/
theorem C7_input_handling :
    ∀ (search : ℕ → ℚ → Option (List (Option Product × ℚ)))
      (llm : Option (String × Bool)) (isInfo : Bool) (query : String)
      (c : ℤ) (th : ℚ) (adj : Bool),
      clampThreshold th = max 0 (min 1 th)
      ∧ (1 ≤ normalizeCount c ∧ normalizeCount c ≤ 20)
      ∧ (20 < c → normalizeCount c = 20)
      ∧ (c < 1 → normalizeCount c = 5)
      ∧ (1 ≤ c → c ≤ 20 → (normalizeCount c : ℤ) = c)
      ∧ (strip query = "" →
          (recommend_products search llm isInfo query c th adj).products = []
          ∧ (recommendWithPasses search llm isInfo query c th adj).2 = [])
      ∧ (strip query ≠ "" →
          (recommendWithPasses search llm isInfo query c th adj).2 ≠ []) := by
  intro search llm isInfo query c th adj
  refine ⟨?_, ⟨?_, ?_⟩, ?_, ?_, ?_, ?_, ?_⟩
  · unfold clampThreshold
    split_ifs with h1 h2
    · rw [min_eq_right (le_of_lt (lt_trans h1 one_pos)),
        max_eq_left (le_of_lt h1)]
    · rw [min_eq_left (le_of_lt h2)]
      norm_num
    · rw [min_eq_right (not_lt.mp h2), max_eq_right (not_lt.mp h1)]
  · unfold normalizeCount
    split_ifs <;> omega
  · unfold normalizeCount
    split_ifs <;> omega
  · intro h
    unfold normalizeCount
    split_ifs <;> omega
  · intro h
    unfold normalizeCount
    split_ifs
    omega
  · intro h1 h2
    unfold normalizeCount
    split_ifs <;> omega
  · intro hempty
    by_cases h0 : query = ""
    · simp [recommend_products, recommendWithPasses, h0, invalidQueryResponse]
    · simp [recommend_products, recommendWithPasses, h0, hempty,
        emptyQueryResponse]
  · intro hne
    have h0 : query ≠ "" := by
      intro h
      exact hne (by rw [h]; rfl)
    rcases hsearch : search (2 * normalizeCount c)
        (effectiveThreshold (strip query) (clampThreshold th) adj) with _ | rs
    · simp [recommendWithPasses, h0, hne, hsearch]
    · simp only [recommendWithPasses, if_neg h0, if_neg hne, hsearch]
      split
      · exact List.cons_ne_nil _ _
      · split
        · exact List.cons_ne_nil _ _
        · split
          · exact List.cons_ne_nil _ _
          · exact List.cons_ne_nil _ _

/-- Witness for C7 (amended): count 25 is clamped to 20, a blank query
is rejected with empty products, and a non-blank query issues a pass. -/
theorem C7_witness :
    normalizeCount 25 = 20
    ∧ (recommend_products (fun _ _ => some []) none false " " 25 2 false).products = []
    ∧ (recommendWithPasses (fun _ _ => some []) none false "hat" 25 2 false).2 ≠ [] := by
  have h1 := C7_input_handling (fun _ _ => some []) none false " " 25 2 false
  have h2 := C7_input_handling (fun _ _ => some []) none false "hat" 25 2 false
  exact ⟨h1.2.2.1 (by decide), (h1.2.2.2.2.2.1 (by rfl)).1,
    h2.2.2.2.2.2.2 (by decide)⟩

/-- Claim C10: the validation step of `recommend_products` keeps exactly
the search rows whose product is present and whose score lies in
`[0, 1]`; every score in the returned payload lies in `[0, 1]` (the
search contract hypothesis is what the in-repo SQL search satisfies,
per the third conjunct: with cosine distances ≥ 0 every returned score
is ≤ 1 and strictly above the pass threshold, which the pipeline keeps
≥ 0 on every pass); in particular no negative score is ever surfaced. -/
theorem C10_score_validation :
    (∀ (rs : List (Option Product × ℚ)) (r : Product × ℚ),
      r ∈ validResults rs ↔ (some r.1, r.2) ∈ rs ∧ 0 ≤ r.2 ∧ r.2 ≤ 1)
    ∧ (∀ (search : ℕ → ℚ → Option (List (Option Product × ℚ)))
        (llm : Option (String × Bool)) (isInfo : Bool) (query : String)
        (c : ℤ) (th : ℚ) (adj : Bool),
        (∀ k t l, search k t = some l → ∀ x ∈ l, x.2 ≤ 1 ∧ t < x.2) →
        ∀ s ∈ (recommend_products search llm isInfo query c th adj).scores,
          0 ≤ s ∧ s ≤ 1)
    ∧ (∀ (qe : List ℚ) (table : List (Product × Option ℚ)) (k : ℕ) (t : ℚ),
        (∀ r ∈ table, ∀ d, r.2 = some d → 0 ≤ d) →
        ∀ pr ∈ search_similar_products qe table k t, pr.2 ≤ 1 ∧ t < pr.2) := by
  refine ⟨fun rs r => mem_validResults,
    fun search llm isInfo query c th adj hs => scores_recommend_aux hs, ?_⟩
  intro qe table k t hd pr hpr
  obtain ⟨p, d, rfl, hmem, hlt⟩ := mem_search_similar_products hpr
  have h0 : 0 ≤ d := hd (p, some d) hmem d rfl
  constructor
  · show 1 - d ≤ 1
    linarith
  · show t < 1 - d
    linarith

/-- Witness for C10: a valid row survives validation, and a concrete
search row at distance 0 yields score 1 within bounds. -/
theorem C10_witness :
    (⟨"a", none⟩, (1 : ℚ) / 2) ∈ validResults [(some ⟨"a", none⟩, (1 : ℚ) / 2)]
    ∧ ((1 : ℚ) ≤ 1 ∧ (0 : ℚ) < 1) := by
  constructor
  · exact (C10_score_validation.1 _ _).mpr
      ⟨List.mem_cons_self _ _, by norm_num, by norm_num⟩
  · have hd : ∀ r ∈ [((⟨"a", none⟩ : Product), some (0 : ℚ))],
        ∀ d : ℚ, r.2 = some d → 0 ≤ d := by
      intro r hr d hdq
      rcases List.mem_cons.mp hr with rfl | hr
      · injection hdq with hdq
        rw [← hdq]
      · exact absurd hr (List.not_mem_nil _)
    have hsearch : search_similar_products [1] [(⟨"a", none⟩, some (0 : ℚ))]
        3 0 = [(⟨"a", none⟩, (1 : ℚ))] := by
      norm_num [search_similar_products, sortDistAsc, insertDistAsc,
        List.filterMap_cons]
    have h := C10_score_validation.2.2 [1] [(⟨"a", none⟩, some (0 : ℚ))] 3 0 hd
      (⟨"a", none⟩, (1 : ℚ)) (by rw [hsearch]; exact List.mem_cons_self _ _)
    exact h
